import Mathlib

/-!
Verification development for the glencraft-goc-n-mon build pipeline.

The definitions below are a shallow embedding of the JavaScript source:

- src/lib/common.js               : isSupported, getModrinthVersionId
- src/lib/server-builder.js       : ServerBuilder.verifyModIndexes,
                                    MrPackBuilder.scanModsDirectory,
                                    MrPackBuilder.buildIndexJson
- src/scripts/deploy.js           : scanServerDirectory, getSyncAction,
                                    analyzeDeployment

Side effects (filesystem stats, the Modrinth lookup over HTTP, SFTP stat
and list calls) are modelled as explicit oracle functions bundled into
environment records, and thrown JavaScript exceptions are modelled with
Except / Option results.

Strings are handled with the Lean String type; the JavaScript string and
path helpers used by the source (String.prototype.startsWith, path.basename,
path.posix.join, String.prototype.split, RegExp.prototype.test) are given
their own definitions over String.data so that they are both executable and
amenable to proof.
-/

/-! ## JavaScript string and path helpers -/

/-- Models path.posix.join for the clean relative segments used by the
source (no trailing or duplicated separators). -/
def pjoin (a b : String) : String :=
  a ++ "/" ++ b

/-- Models path.posix.join(relativePath, item) where relativePath starts out
as the empty string: joining onto the empty string yields the item itself. -/
def pjoinRel (r n : String) : String :=
  if r == "" then n else r ++ "/" ++ n

/-- Models String.prototype.startsWith. -/
def strStartsWith (s p : String) : Bool :=
  p.data.isPrefixOf s.data

/-- Models String.prototype.endsWith. -/
def strEndsWith (s p : String) : Bool :=
  p.data.isSuffixOf s.data

/-- Models String.prototype.includes for a single character. -/
def strContains (s : String) (c : Char) : Bool :=
  s.data.contains c

/-- Helper for basename: the characters after the last separator. -/
def afterLastSep (l : List Char) : List Char :=
  l.foldl (fun acc c => if c = '/' then [] else acc ++ [c]) []

/-- Models path.basename for slash separated relative names without a
trailing slash (the only shape the source feeds it). -/
def basename (s : String) : String :=
  String.mk (afterLastSep s.data)

/-- Models relativePath.split(sep)[0]: the characters before the
first separator. -/
def topLevelSegment (s : String) : String :=
  String.mk (s.data.takeWhile (fun c => c != '/'))

/-- Models file.replace of a trailing ".disabled" with the empty string,
as in ServerBuilder.verifyModIndexes. -/
def stripDisabledSuffix (s : String) : String :=
  if strEndsWith s ".disabled" then String.mk (s.data.take (s.data.length - 9)) else s

/-! ## Mod classifier (src/lib/common.js, isSupported) -/

/-- Embeds isSupported(side, env, optional = false) from src/lib/common.js.
The first argument is the platform being checked, the second the side
declared by the descriptor, the third the disabled flag of the mod file. -/
def isSupported (side env : String) (optional : Bool) : String :=
  if side == "server" && (env == "server" || env == "both") then
    if optional then "optional" else "required"
  else if side == "client" && (env == "client" || env == "both") then
    if optional then "optional" else "required"
  else
    "unsupported"

/-! ## Metadata index verification (src/lib/server-builder.js, ServerBuilder.verifyModIndexes) -/

/-- Models building a JavaScript object keyed by descriptor filename with
reduce: later duplicate keys overwrite the value but keep the first
insertion position, so the key list is the input deduplicated keeping
first occurrences. -/
def objectKeys (l : List String) : List String :=
  l.foldl (fun acc k => if acc.contains k then acc else acc ++ [k]) []

/-- Outcome of ServerBuilder.verifyModIndexes: either it returns normally,
or it throws after warning about one kind of mismatch. -/
inductive VerifyResult where
  | ok
  | errMissingFiles (files : List String)
  | errMissingIndexes (files : List String)
deriving DecidableEq

/-- The list of names printed by the failing branch of verifyModIndexes
(empty when it returns normally). -/
def reportedNames : VerifyResult → List String
  | VerifyResult.ok => []
  | VerifyResult.errMissingFiles l => l
  | VerifyResult.errMissingIndexes l => l

/-- The missingIndexes list of verifyModIndexes: binaries whose stripped
name is not a key of the descriptor object. -/
def vMissingIndexes (indexNames modFiles : List String) : List String :=
  modFiles.filter (fun f => !((objectKeys indexNames).contains (stripDisabledSuffix f)))

/-- The missingFiles list of verifyModIndexes: descriptor keys with
neither an enabled nor a disabled binary on disk. -/
def vMissingFiles (indexNames modFiles : List String) : List String :=
  (objectKeys indexNames).filter (fun f => !(modFiles.contains f) && !(modFiles.contains (f ++ ".disabled")))

/-- Embeds ServerBuilder.verifyModIndexes. indexNames are the
descriptor-declared filenames from the .index toml files, modFiles the
binary names found on disk (jar or disabled). The source throws on
missingFiles first and only otherwise on missingIndexes. -/
def verifyModIndexes (indexNames modFiles : List String) : VerifyResult :=
  if (vMissingFiles indexNames modFiles).length > 0 then
    VerifyResult.errMissingFiles (vMissingFiles indexNames modFiles)
  else if (vMissingIndexes indexNames modFiles).length > 0 then
    VerifyResult.errMissingIndexes (vMissingIndexes indexNames modFiles)
  else VerifyResult.ok

/-! ## Mod scanning and download resolution (src/lib/server-builder.js, MrPackBuilder) -/

/-- Descriptor record parsed from one .index toml file, restricted to the
fields MrPackBuilder.scanModsDirectory reads: filename, side, download.mode
and download.url. -/
structure ModData where
  filename : String
  side : String
  downloadMode : String
  downloadUrl : Option String := none
deriving DecidableEq

/-- One candidate file descriptor returned by the Modrinth
version_file endpoint (url, size, hashes, filename). -/
structure ApiFile where
  url : String
  size : Nat
  hashSha1 : Option String := none
  hashSha512 : Option String := none
  filename : String
deriving DecidableEq

/-- Outcome of the fetch performed by getModrinthVersionId: the request can
fail at the network level, return a non-OK HTTP status, or succeed with a
body whose files field may be absent. -/
inductive FetchOutcome where
  | netErr
  | httpErr
  | success (files : Option (List ApiFile))
deriving DecidableEq

/-- Embeds getModrinthVersionId from src/lib/common.js. A network failure
rejects the fetch promise and a non-OK response throws inside the then
chain; both are captured by the trailing catch which resolves to null,
modelled as none. On success the body files field defaulted with the
nullish coalescing operator to the empty list is returned. -/
def getModrinthVersionId : FetchOutcome → Option (List ApiFile)
  | FetchOutcome.netErr => none
  | FetchOutcome.httpErr => none
  | FetchOutcome.success fs => some (fs.getD [])

/-- Oracle bundle for the effectful calls made while scanning the mods
directory: modIsDisabled (dis), getFileSizeSync (size), getSha1Sync and
getSha512Sync (which return null on error, hence Option), and the fetch
behaviour of getModrinthVersionId per sha1 argument (lookup). -/
structure Env where
  dis : String → Bool
  size : String → Nat
  sha1 : String → Option String
  sha512 : String → Option String
  lookup : Option String → FetchOutcome

/-- The on-disk path of the mod binary: the joined path, with the
".disabled" suffix appended when modIsDisabled reports the mod disabled. -/
def modFilePathOf (e : Env) (modsDir : String) (m : ModData) : String :=
  let p0 := pjoin modsDir m.filename
  if e.dis p0 then p0 ++ ".disabled" else p0

/-- Embeds the sideCheck closure of MrPackBuilder.scanModsDirectory. When
includeAll is not set, or the platform checked is the server, it defers to
isSupported; with includeAll set the client side is forced to required
(optional when disabled). The final branch returns undefined in the
source; it is unreachable for the two platform strings actually passed. -/
def sideCheck (includeAll : Bool) (check stated : String) (dis : Bool) : String :=
  if !includeAll || check == "server" then isSupported check stated dis
  else if check == "client" then (if dis then "optional" else "required")
  else "undefined"

/-- One record pushed onto modFiles by MrPackBuilder.scanModsDirectory.
JavaScript object keys that a given push leaves absent are modelled by the
default field values (override defaults to false, matching the falsy read
of an absent key). -/
structure ModFile where
  downloads : List (Option String) := []
  envClient : String := ""
  envServer : String := ""
  fileSize : Nat := 0
  hashSha1 : Option String := none
  hashSha512 : Option String := none
  path : Option String := none
  filePath : Option String := none
  isDisabled : Bool := false
  override : Bool := false
  data : Option ModData := none
deriving DecidableEq

/-- Models the JavaScript truthiness fallback (m.path || m.filePath) used
as the pattern test target, with an absent value rendered as the empty
string. -/
def ruleTarget (m : ModFile) : String :=
  match m.path with
  | some s => if s == "" then (match m.filePath with | some t => t | none => "") else s
  | none => match m.filePath with | some t => t | none => ""

/-- Options object accepted by MrPackBuilder.scanModsDirectory. Callers
(src/build-mrpack.js) also pass an ensureOptional list of patterns; the
destructuring in the source reads only ensureMods, ignoreMods and
includeAll, so ensureOptional is carried here but never read by the scan.
Patterns model RegExp.prototype.test as String to Bool. -/
structure ScanOpts where
  ensureMods : List (String → Bool) := []
  ignoreMods : List (String → Bool) := []
  ensureOptional : List (String → Bool) := []
  includeAll : Bool := false

/-- The first rule pass: every ignoreMods pattern matching the target
overwrites env.client with optional when disabled, else unsupported. All
matches write the same value, so the loop equals a single conditional
update. -/
def applyIgnoreRules (pats : List (String → Bool)) (m : ModFile) : ModFile :=
  if pats.any (fun p => p (ruleTarget m)) then
    { m with envClient := if m.isDisabled then "optional" else "unsupported" }
  else m

/-- The second rule pass: every ensureMods pattern matching the target
overwrites env.client with optional when disabled, else required. -/
def applyEnsureRules (pats : List (String → Bool)) (m : ModFile) : ModFile :=
  if pats.any (fun p => p (ruleTarget m)) then
    { m with envClient := if m.isDisabled then "optional" else "required" }
  else m

/-- The rule application map of MrPackBuilder.scanModsDirectory: the
ignoreMods loop runs first, the ensureMods loop second, both only ever
assigning env.client. -/
def applyModRules (opts : ScanOpts) (m : ModFile) : ModFile :=
  applyEnsureRules opts.ensureMods (applyIgnoreRules opts.ignoreMods m)

/-- Modelled from the spec, for comparison with the source behaviour: the
claimed rule engine with a third pass in which any matching ensureOptional
pattern forces client support to optional regardless of the disabled
state. -/
def applyRulesPerSpec (opts : ScanOpts) (m : ModFile) : ModFile :=
  let m1 := applyIgnoreRules opts.ignoreMods m
  let m2 := applyEnsureRules opts.ensureMods m1
  if opts.ensureOptional.any (fun p => p (ruleTarget m2)) then
    { m2 with envClient := "optional" }
  else m2

/-- Embeds the per-descriptor body of the scan loop. Mode url pushes a
download record built from the descriptor and the on-disk file; mode
metadata:curseforge resolves the sha1 of the binary through
getModrinthVersionId and pushes an override record when the lookup yields
null, zero candidates or more than one candidate, else a download record
built from the single candidate. Any other mode evaluates an undefined
variable in the source (a thrown ReferenceError), modelled as an error. -/
def processMod (e : Env) (modsDir : String) (includeAll : Bool) (m : ModData) : Except String ModFile :=
  if m.downloadMode == "url" then
    let d := e.dis (pjoin modsDir m.filename)
    let p := modFilePathOf e modsDir m
    Except.ok
      { downloads := [m.downloadUrl]
        envClient := sideCheck includeAll "client" m.side d
        envServer := sideCheck includeAll "server" m.side d
        fileSize := e.size p
        hashSha1 := e.sha1 p
        hashSha512 := e.sha512 p
        path := some ("mods/" ++ m.filename)
        isDisabled := d }
  else if m.downloadMode == "metadata:curseforge" then
    let d := e.dis (pjoin modsDir m.filename)
    let p := modFilePathOf e modsDir m
    match getModrinthVersionId (e.lookup (e.sha1 p)) with
    | some [a] =>
      Except.ok
        { downloads := [some a.url]
          envClient := sideCheck includeAll "client" m.side d
          envServer := sideCheck includeAll "server" m.side d
          fileSize := a.size
          hashSha1 := a.hashSha1
          hashSha512 := a.hashSha512
          path := some ("mods/" ++ a.filename)
          isDisabled := d }
    | _ =>
      Except.ok
        { isDisabled := d
          override := true
          filePath := some p
          envClient := sideCheck includeAll "client" m.side d
          envServer := sideCheck includeAll "server" m.side d
          data := some m }
  else
    Except.error "ReferenceError: filePath is not defined"

/-- The sequential scan loop over the descriptor records: it aborts on the
first thrown error and otherwise collects the pushed records in order. -/
def processAll (e : Env) (modsDir : String) (includeAll : Bool) : List ModData → Except String (List ModFile)
  | [] => Except.ok []
  | m :: ms =>
    match processMod e modsDir includeAll m with
    | Except.error s => Except.error s
    | Except.ok r =>
      match processAll e modsDir includeAll ms with
      | Except.error s => Except.error s
      | Except.ok rs => Except.ok (r :: rs)

/-- Manifest file record: the shape kept in this.files, which is the
scanned record with the isDisabled key removed by the rest spread. The
path field is always set on the records that reach the manifest. -/
structure ManifestFile where
  downloads : List (Option String)
  envClient : String
  envServer : String
  fileSize : Nat
  hashSha1 : Option String
  hashSha512 : Option String
  path : String
  override : Bool
deriving DecidableEq

/-- The rest spread that drops isDisabled from a scanned record. -/
def toManifest (m : ModFile) : ManifestFile :=
  { downloads := m.downloads
    envClient := m.envClient
    envServer := m.envServer
    fileSize := m.fileSize
    hashSha1 := m.hashSha1
    hashSha512 := m.hashSha512
    path := m.path.getD ""
    override := m.override }

/-- Result of MrPackBuilder.scanModsDirectory: this.files and
this.overrideMods. -/
structure ScanResult where
  files : List ManifestFile
  overrideMods : List ModFile
deriving DecidableEq

/-- Embeds MrPackBuilder.scanModsDirectory: process every descriptor in
index order, run the two rule passes over the collected records, then
split them into the manifest files (records without the override flag,
stripped of isDisabled) and the override bucket (records with it). -/
def scanModsDirectory (e : Env) (modsDir : String) (indexFiles : List ModData) (opts : ScanOpts) : Except String ScanResult :=
  match processAll e modsDir opts.includeAll indexFiles with
  | Except.error s => Except.error s
  | Except.ok modFiles =>
    let ruled := modFiles.map (applyModRules opts)
    Except.ok
      { files := (ruled.filter (fun m => !m.override)).map toManifest
        overrideMods := ruled.filter (fun m => m.override) }

/-! ## Manifest serialization (src/lib/server-builder.js, MrPackBuilder.buildIndexJson) -/

/-- Pack level fields read by buildIndexJson, with the two dependency map
entries of the constructor defaults. -/
structure PackMeta where
  version : String
  name : String
  summary : String := ""
  icon : Option String := none
  game : String := "minecraft"
  formatVersion : Nat := 1
  depMinecraft : String := "1.21.1"
  depNeoforge : String := "21.1.196"
deriving DecidableEq

/-- Models the JSON.stringify escaping of one character for the character
ranges appearing in this data (quote, backslash and the common control
characters; other characters are emitted verbatim). -/
def escJsonChar (c : Char) : String :=
  if c = '"' then "\\\""
  else if c = '\\' then "\\\\"
  else if c = '\n' then "\\n"
  else if c = '\r' then "\\r"
  else if c = '\t' then "\\t"
  else String.mk [c]

/-- JSON string literal rendering. -/
def jsonStr (s : String) : String :=
  "\"" ++ String.join (s.data.map escJsonChar) ++ "\""

/-- JSON rendering of a possibly absent string inside an array or object
value position: JSON.stringify renders undefined array elements and null
values as null. -/
def jsonOptStr : Option String → String
  | none => "null"
  | some s => jsonStr s

/-- Comma separated concatenation, as JSON.stringify produces (no
whitespace). -/
def joinComma : List String → String
  | [] => ""
  | [x] => x
  | x :: xs => x ++ "," ++ joinComma xs

/-- JSON array rendering. -/
def jsonArr (l : List String) : String :=
  "[" ++ joinComma l ++ "]"

/-- JSON.stringify of one manifest file record, with the object keys in
insertion order: downloads, env (client then server), fileSize, hashes
(sha1 then sha512), path. The records reaching this.files never carry the
override key, hence it is not rendered. -/
def renderManifestFile (f : ManifestFile) : String :=
  "\x7b\"downloads\":" ++ jsonArr (f.downloads.map jsonOptStr)
    ++ ",\"env\":\x7b\"client\":" ++ jsonStr f.envClient
    ++ ",\"server\":" ++ jsonStr f.envServer
    ++ "\x7d,\"fileSize\":" ++ toString f.fileSize
    ++ ",\"hashes\":\x7b\"sha1\":" ++ jsonOptStr f.hashSha1
    ++ ",\"sha512\":" ++ jsonOptStr f.hashSha512
    ++ "\x7d,\"path\":" ++ jsonStr f.path
    ++ "\x7d"

/-- The serialized index up to and including the files key. The icon key
is emitted only when an icon was configured; JSON.stringify omits keys
whose value is undefined. -/
def indexJsonPrefix (b : PackMeta) : String :=
  "\x7b\"formatVersion\":" ++ toString b.formatVersion
    ++ ",\"game\":" ++ jsonStr b.game
    ++ ",\"versionId\":" ++ jsonStr b.version
    ++ ",\"name\":" ++ jsonStr b.name
    ++ ",\"summary\":" ++ jsonStr b.summary
    ++ (match b.icon with
        | some _ => ",\"icon\":\"pack.png\""
        | none => "")
    ++ ",\"files\":"

/-- The serialized dependency map and closing brace. -/
def indexJsonSuffix (b : PackMeta) : String :=
  ",\"dependencies\":\x7b\"minecraft\":" ++ jsonStr b.depMinecraft
    ++ ",\"neoforge\":" ++ jsonStr b.depNeoforge
    ++ "\x7d\x7d"

/-- Embeds MrPackBuilder.buildIndexJson: JSON.stringify of the index
object, keys in insertion order, files rendered in the order of
this.files. The source writes this string to modrinth.index.json. -/
def buildIndexJson (b : PackMeta) (files : List ManifestFile) : String :=
  indexJsonPrefix b ++ jsonArr (files.map renderManifestFile) ++ indexJsonSuffix b

/-! ## Deployment planning (src/scripts/deploy.js) -/

/-- One item collected by scanServerDirectory. Directory items carry no
size in the source; the default 0 stands for the absent key, which the
analysis never reads for directories. -/
structure LocalItem where
  name : String
  localPath : String
  type : String
  size : Nat := 0
  action : String := ""
deriving DecidableEq

/-- One entry of a remote directory listing as returned by sftp.list;
type is the file type marker, a dash for regular files. -/
structure RemoteEntry where
  name : String
  type : String
  size : Nat := 0
deriving DecidableEq

/-- Oracle for the remote filesystem: getRemoteFileInfo returns the size
and directory flag when stat succeeds (none models the caught stat error,
reported as not existing), and listDir returns the listing when sftp.list
succeeds (none models the caught listing error). -/
structure SFTPState where
  info : String → Option (Nat × Bool)
  listDir : String → Option (List RemoteEntry)

/-- Embeds getSyncAction: the top level path segment decides between the
exact-sync allow-list and upload-only. -/
def getSyncAction (relativePath : String) : String :=
  if ["mods", "libraries", "kubejs", "configureddefaults"].contains (topLevelSegment relativePath) then
    "exact-sync"
  else
    "upload-only"

/-- Local file tree abstraction for scanServerDirectory: a named file with
a size, or a named directory with children in readdir order. -/
inductive FsEntry where
  | file (name : String) (size : Nat)
  | dir (name : String) (children : List FsEntry)

/-- The name of a tree entry. -/
def entryName : FsEntry → String
  | FsEntry.file n _ => n
  | FsEntry.dir n _ => n

mutual

/-- Embeds the body of the scanDir loop of scanServerDirectory for one
directory entry: skip anything at or under the top level libraries
directory when the flag is set, record the item, and recurse into
directories. -/
def scanEntry (skipLibraries : Bool) (currentDir relativePath : String) : FsEntry → List LocalItem
  | FsEntry.file n sz =>
    let itemPath := pjoin currentDir n
    let relativeName := pjoinRel relativePath n
    if skipLibraries && (relativeName == "libraries" || strStartsWith relativeName "libraries/") then []
    else [{ name := relativeName, localPath := itemPath, type := "file", size := sz,
            action := getSyncAction relativeName }]
  | FsEntry.dir n children =>
    let itemPath := pjoin currentDir n
    let relativeName := pjoinRel relativePath n
    if skipLibraries && (relativeName == "libraries" || strStartsWith relativeName "libraries/") then []
    else
      { name := relativeName, localPath := itemPath, type := "directory",
        action := getSyncAction relativeName } :: scanEntries skipLibraries itemPath relativeName children

/-- The scanDir loop over the readdir contents of one directory. -/
def scanEntries (skipLibraries : Bool) (currentDir relativePath : String) : List FsEntry → List LocalItem
  | [] => []
  | e :: es => scanEntry skipLibraries currentDir relativePath e ++ scanEntries skipLibraries currentDir relativePath es

end

/-- Embeds scanServerDirectory: scan the server tree from the root with an
empty relative path. -/
def scanServerDirectory (serverDir : String) (tree : List FsEntry) (skipLibraries : Bool) : List LocalItem :=
  scanEntries skipLibraries serverDir "" tree

/-- The protectedFiles list of analyzeDeployment. -/
def protectedFiles : List String :=
  ["banned-ips.json", "banned-players.json", "blacklist.json", "whitelist.json", "ops.json"]

/-- The exact synchronization allow-list of analyzeDeployment, with
libraries removed when the skip flag is set. -/
def exactSyncDirs (skipLibraries : Bool) : List String :=
  let l := ["mods", "libraries", "kubejs", "configureddefaults"]
  if skipLibraries then l.filter (fun d => d != "libraries") else l

/-- The continue guard of the classification loop: directory entries are
skipped. -/
def isDirItem (it : LocalItem) : Bool :=
  it.type == "directory"

/-- The protection guard of the classification loop: the basename is on
the protected list and the remote file already exists. -/
def protHit (sftp : SFTPState) (remotePath : String) (it : LocalItem) : Bool :=
  protectedFiles.contains (basename it.name) && (sftp.info (pjoin remotePath it.name)).isSome

/-- The upload guard of the classification loop: the remote file is absent
or its size differs from the local size. -/
def sizeChanged (sftp : SFTPState) (remotePath : String) (it : LocalItem) : Bool :=
  match sftp.info (pjoin remotePath it.name) with
  | none => true
  | some i => i.1 != it.size

/-- The first loop of analyzeDeployment over the scanned items, returning
(toUpload, unchanged, toProtect) in iteration order. Directory entries are
skipped; a protected basename with an existing remote counterpart is
protected unconditionally; otherwise an absent remote file or a size
difference sends the item to upload, else to unchanged. -/
def classifyLoop (sftp : SFTPState) (remotePath : String) : List LocalItem → (List LocalItem × List LocalItem × List LocalItem)
  | [] => ([], [], [])
  | item :: rest =>
    let res := classifyLoop sftp remotePath rest
    if isDirItem item then res
    else if protHit sftp remotePath item then
      (res.1, res.2.1, item :: res.2.2)
    else if sizeChanged sftp remotePath item then
      (item :: res.1, res.2.1, res.2.2)
    else
      (res.1, item :: res.2.1, res.2.2)

/-- Local file basenames under one synchronized directory: the items whose
relative name starts with the directory name and a slash, mapped to their
basename. -/
def localFilesIn (items : List LocalItem) (syncDir : String) : List String :=
  (items.filter (fun it => strStartsWith it.name (syncDir ++ "/") && it.type == "file")).map
    (fun it => basename it.name)

/-- One deletion scheduled by analyzeDeployment. -/
structure DeleteItem where
  name : String
  remotePath : String
deriving DecidableEq

/-- The deletion pass of analyzeDeployment for one synchronized directory:
when the remote directory exists and lists successfully, every listed
regular file without a local counterpart of the same name is scheduled for
deletion; stat misses, non-directories and listing errors contribute
nothing. -/
def deletesFor (sftp : SFTPState) (remotePath : String) (items : List LocalItem) (syncDir : String) : List DeleteItem :=
  let remoteDirPath := pjoin remotePath syncDir
  match sftp.info remoteDirPath with
  | some info =>
    if info.2 then
      match sftp.listDir remoteDirPath with
      | some remoteFiles =>
        (remoteFiles.filter (fun rf => rf.type == "-" && !((localFilesIn items syncDir).contains rf.name))).map
          (fun rf => { name := pjoin syncDir rf.name, remotePath := pjoin remoteDirPath rf.name })
      | none => []
    else []
  | none => []

/-- The four-way partition returned by analyzeDeployment. -/
structure DeployPlan where
  toUpload : List LocalItem
  toDelete : List DeleteItem
  unchanged : List LocalItem
  toProtect : List LocalItem
deriving DecidableEq

/-- Embeds analyzeDeployment: classify every scanned item against the
remote, then collect deletions from every directory on the exact
synchronization allow-list. -/
def analyzeDeployment (sftp : SFTPState) (items : List LocalItem) (remotePath : String) (skipLibraries : Bool) : DeployPlan :=
  let cls := classifyLoop sftp remotePath items
  { toUpload := cls.1
    toDelete := ((exactSyncDirs skipLibraries).map (deletesFor sftp remotePath items)).flatten
    unchanged := cls.2.1
    toProtect := cls.2.2 }

/-! ## Concrete instances used by counterexamples and witnesses -/

/-- A pattern matching exactly the path mods/a.jar, as a model of the
RegExp test. -/
def patModA : String → Bool := fun s => s == "mods/a.jar"

/-- Scan options putting mods/a.jar on both the ensure and the
ensureOptional list, as src/build-mrpack.js does for its ensureOptional
entries. -/
def c4Opts : ScanOpts :=
  { ensureMods := [patModA], ignoreMods := [], ensureOptional := [patModA], includeAll := false }

/-- An enabled scanned record for mods/a.jar. -/
def c4Mod : ModFile :=
  { path := some "mods/a.jar", envClient := "required", envServer := "required", isDisabled := false }

/-- A descriptor resolved by content hash. -/
def c3Mod : ModData :=
  { filename := "a.jar", side := "both", downloadMode := "metadata:curseforge" }

/-- An oracle environment whose registry lookup succeeds with zero
candidates. -/
def c3Env : Env :=
  { dis := fun _ => false, size := fun _ => 0, sha1 := fun _ => some "abc",
    sha512 := fun _ => some "feed", lookup := fun _ => FetchOutcome.success (some []) }

/-- An oracle environment whose registry lookup fails at the network
level. -/
def c10EnvFail : Env :=
  { dis := fun _ => false, size := fun _ => 0, sha1 := fun _ => some "abc",
    sha512 := fun _ => some "feed", lookup := fun _ => FetchOutcome.netErr }

/-- A local ops.json whose size differs from the remote copy. -/
def c5Item : LocalItem :=
  { name := "ops.json", localPath := "root/ops.json", type := "file", size := 7,
    action := "upload-only" }

/-- A remote filesystem holding only ops.json, with a different size, and
refusing every listing. -/
def c5Sftp : SFTPState :=
  { info := fun p => if p == "/srv/ops.json" then some (3, false) else none,
    listDir := fun _ => none }

/-- A remote filesystem with a mods directory containing one stale file. -/
def c6Sftp : SFTPState :=
  { info := fun p => if p == "/srv/mods" then some (0, true) else none,
    listDir := fun p =>
      if p == "/srv/mods" then some [{ name := "old.jar", type := "-", size := 10 }] else none }

/-- A local tree consisting of one mod file. -/
def c7Items : List LocalItem :=
  [{ name := "mods/a.jar", localPath := "root/mods/a.jar", type := "file", size := 4,
     action := "exact-sync" }]

/-- A remote filesystem equal to c7Items: the mods directory exists and
lists exactly a.jar with the local size. -/
def c7Sftp : SFTPState :=
  { info := fun p =>
      if p == "/srv/mods/a.jar" then some (4, false)
      else if p == "/srv/mods" then some (0, true)
      else none,
    listDir := fun p =>
      if p == "/srv/mods" then some [{ name := "a.jar", type := "-", size := 4 }] else none }

/-- A local whitelist.json matching its remote copy exactly. -/
def c7ProtItems : List LocalItem :=
  [{ name := "whitelist.json", localPath := "root/whitelist.json", type := "file", size := 5,
     action := "upload-only" }]

/-- A remote filesystem equal to c7ProtItems. -/
def c7ProtSftp : SFTPState :=
  { info := fun p => if p == "/srv/whitelist.json" then some (5, false) else none,
    listDir := fun _ => none }

/-- Pack metadata used by the serializer counterexample. -/
def c8Meta : PackMeta :=
  { version := "1.0.0", name := "Pack" }

/-- A manifest record for mods/a.jar. -/
def c8FileA : ManifestFile :=
  { downloads := [some "https://cdn.example/a.jar"], envClient := "required",
    envServer := "required", fileSize := 1, hashSha1 := some "a1", hashSha512 := some "a5",
    path := "mods/a.jar", override := false }

/-- A manifest record for mods/b.jar. -/
def c8FileB : ManifestFile :=
  { downloads := [some "https://cdn.example/b.jar"], envClient := "required",
    envServer := "required", fileSize := 1, hashSha1 := some "b1", hashSha512 := some "b5",
    path := "mods/b.jar", override := false }

/-! ## Helper lemmas -/

theorem mem_objectKeys_aux (l acc : List String) (x : String) :
    x ∈ l.foldl (fun acc k => if acc.contains k then acc else acc ++ [k]) acc ↔ x ∈ acc ∨ x ∈ l := by
  induction l generalizing acc with
  | nil => simp
  | cons k ks ih =>
    simp only [List.foldl_cons]
    by_cases hk : acc.contains k = true
    · rw [if_pos hk]
      rw [ih]
      simp only [List.elem_eq_mem, decide_eq_true_eq] at hk
      constructor
      · rintro (h | h)
        · exact Or.inl h
        · exact Or.inr (List.mem_cons_of_mem _ h)
      · rintro (h | h)
        · exact Or.inl h
        · rcases List.mem_cons.mp h with rfl | h
          · exact Or.inl hk
          · exact Or.inr h
    · rw [if_neg hk]
      rw [ih]
      simp only [List.mem_append, List.mem_singleton, List.mem_cons]
      tauto

theorem mem_objectKeys (l : List String) (x : String) :
    x ∈ objectKeys l ↔ x ∈ l := by
  have h := mem_objectKeys_aux l [] x
  simpa [objectKeys] using h

/-! ## C1: classification truth table -/

/-- C1: isSupported realises the classification truth table. With the mod
enabled, side both is required on both platforms, side client is required
on the client and unsupported on the server, side server symmetrically;
and for every side value, disabling downgrades a required platform to
optional while an unsupported platform stays unsupported. -/
theorem C1_classification_truth_table :
    (∀ d : Bool,
      isSupported "client" "both" d = (if d then "optional" else "required") ∧
      isSupported "server" "both" d = (if d then "optional" else "required") ∧
      isSupported "client" "client" d = (if d then "optional" else "required") ∧
      isSupported "server" "client" d = "unsupported" ∧
      isSupported "server" "server" d = (if d then "optional" else "required") ∧
      isSupported "client" "server" d = "unsupported") ∧
    (∀ side env : String,
      (isSupported side env false = "required" → isSupported side env true = "optional") ∧
      (isSupported side env false = "unsupported" → isSupported side env true = "unsupported")) := by
  constructor
  · decide
  · intro side env
    unfold isSupported
    constructor <;> intro h <;> split_ifs at h ⊢ <;> simp_all

/-- C1 witness: the truth table theorem applied at a concrete side value
outside the enumeration, with its hypothesis discharged by evaluation. -/
theorem C1_classification_truth_table_witness :
    isSupported "client" "weird" true = "unsupported" :=
  (C1_classification_truth_table.2 "client" "weird").2 (by decide)

/-! ## C2: index mismatch reporting -/

theorem mem_vMissingFiles (indexNames modFiles : List String) (x : String) :
    x ∈ vMissingFiles indexNames modFiles ↔
      x ∈ indexNames ∧ x ∉ modFiles ∧ (x ++ ".disabled") ∉ modFiles := by
  simp [vMissingFiles, List.mem_filter, mem_objectKeys, and_assoc]

theorem mem_vMissingIndexes (indexNames modFiles : List String) (x : String) :
    x ∈ vMissingIndexes indexNames modFiles ↔
      x ∈ modFiles ∧ stripDisabledSuffix x ∉ indexNames := by
  simp [vMissingIndexes, List.mem_filter, mem_objectKeys]

/-- C2 counterexample: with one orphaned descriptor (a.jar) and one
orphaned binary (b.jar) present at the same time, verifyModIndexes throws
reporting only the descriptor lacking a binary; the orphaned binary b.jar
is absent from the report, so the report is not the combined list the
claim requires. -/
theorem C2_counterexample :
    verifyModIndexes ["a.jar"] ["b.jar"] = VerifyResult.errMissingFiles ["a.jar"] ∧
    "b.jar" ∉ reportedNames (verifyModIndexes ["a.jar"] ["b.jar"]) := by
  decide

/-- C2 (amended): verifyModIndexes returns normally exactly when every
descriptor has a binary and every binary has a descriptor. When at least
one descriptor lacks a binary it fails listing exactly the descriptors
lacking binaries, whatever orphaned binaries also exist; only when no
descriptor is orphaned does it fail listing exactly the binaries lacking
descriptors. The two kinds are never combined in one report. -/
theorem C2_mismatch_reporting (indexNames modFiles : List String) :
    (verifyModIndexes indexNames modFiles = VerifyResult.ok ↔
      (∀ f ∈ indexNames, f ∈ modFiles ∨ (f ++ ".disabled") ∈ modFiles) ∧
      (∀ f ∈ modFiles, stripDisabledSuffix f ∈ indexNames)) ∧
    (∀ l, verifyModIndexes indexNames modFiles = VerifyResult.errMissingFiles l →
      ∀ x, x ∈ l ↔ (x ∈ indexNames ∧ x ∉ modFiles ∧ (x ++ ".disabled") ∉ modFiles)) ∧
    (∀ l, verifyModIndexes indexNames modFiles = VerifyResult.errMissingIndexes l →
      (∀ f ∈ indexNames, f ∈ modFiles ∨ (f ++ ".disabled") ∈ modFiles) ∧
      ∀ x, x ∈ l ↔ (x ∈ modFiles ∧ stripDisabledSuffix x ∉ indexNames)) := by
  unfold verifyModIndexes
  split_ifs with h1 h2
  · refine ⟨?_, ?_, ?_⟩
    · simp only [reduceCtorEq, false_iff]
      rintro ⟨hbin, _⟩
      rcases List.exists_mem_of_ne_nil _ (List.length_pos.mp h1) with ⟨x, hx⟩
      rcases (mem_vMissingFiles indexNames modFiles x).mp hx with ⟨hxi, hx1, hx2⟩
      rcases hbin x hxi with h | h
      · exact hx1 h
      · exact hx2 h
    · intro l hl
      cases hl
      intro x
      exact mem_vMissingFiles indexNames modFiles x
    · intro l hl
      cases hl
  · refine ⟨?_, ?_, ?_⟩
    · simp only [reduceCtorEq, false_iff]
      rintro ⟨_, hidx⟩
      rcases List.exists_mem_of_ne_nil _ (List.length_pos.mp h2) with ⟨x, hx⟩
      rcases (mem_vMissingIndexes indexNames modFiles x).mp hx with ⟨hxm, hxs⟩
      exact hxs (hidx x hxm)
    · intro l hl
      cases hl
    · intro l hl
      cases hl
      have hempty : vMissingFiles indexNames modFiles = [] := by
        cases hv : vMissingFiles indexNames modFiles with
        | nil => rfl
        | cons a t => rw [hv] at h1; simp at h1
      constructor
      · intro f hf
        by_contra hcon
        push_neg at hcon
        have : f ∈ vMissingFiles indexNames modFiles :=
          (mem_vMissingFiles indexNames modFiles f).mpr ⟨hf, hcon.1, hcon.2⟩
        rw [hempty] at this
        exact List.not_mem_nil f this
      · intro x
        exact mem_vMissingIndexes indexNames modFiles x
  · have hmf : vMissingFiles indexNames modFiles = [] := by
      cases hv : vMissingFiles indexNames modFiles with
      | nil => rfl
      | cons a t => rw [hv] at h1; simp at h1
    have hmi : vMissingIndexes indexNames modFiles = [] := by
      cases hv : vMissingIndexes indexNames modFiles with
      | nil => rfl
      | cons a t => rw [hv] at h2; simp at h2
    refine ⟨?_, ?_, ?_⟩
    · simp only [true_iff]
      constructor
      · intro f hf
        by_contra hcon
        push_neg at hcon
        have : f ∈ vMissingFiles indexNames modFiles :=
          (mem_vMissingFiles indexNames modFiles f).mpr ⟨hf, hcon.1, hcon.2⟩
        rw [hmf] at this
        exact List.not_mem_nil f this
      · intro f hf
        by_contra hcon
        have : f ∈ vMissingIndexes indexNames modFiles :=
          (mem_vMissingIndexes indexNames modFiles f).mpr ⟨hf, hcon⟩
        rw [hmi] at this
        exact List.not_mem_nil f this
    · intro l hl
      cases hl
    · intro l hl
      cases hl

/-- C2 witness: the amended reporting theorem applied to a concrete
mismatching pair of descriptor and binary sets. -/
theorem C2_mismatch_reporting_witness :
    "a.jar" ∈ ["a.jar"] ∧ "a.jar" ∉ (["b.jar"] : List String) ∧
      ("a.jar" ++ ".disabled") ∉ (["b.jar"] : List String) :=
  ((C2_mismatch_reporting ["a.jar"] ["b.jar"]).2.1 ["a.jar"] (by decide) "a.jar").mp (by decide)

/-! ## Rule pass helper lemmas -/

theorem ruleTarget_update_envClient (m : ModFile) (s : String) :
    ruleTarget { m with envClient := s } = ruleTarget m := by
  simp [ruleTarget]

theorem applyIgnoreRules_fields (pats : List (String → Bool)) (m : ModFile) :
    (applyIgnoreRules pats m).downloads = m.downloads ∧
    (applyIgnoreRules pats m).envServer = m.envServer ∧
    (applyIgnoreRules pats m).fileSize = m.fileSize ∧
    (applyIgnoreRules pats m).hashSha1 = m.hashSha1 ∧
    (applyIgnoreRules pats m).hashSha512 = m.hashSha512 ∧
    (applyIgnoreRules pats m).path = m.path ∧
    (applyIgnoreRules pats m).filePath = m.filePath ∧
    (applyIgnoreRules pats m).isDisabled = m.isDisabled ∧
    (applyIgnoreRules pats m).override = m.override ∧
    (applyIgnoreRules pats m).data = m.data ∧
    ruleTarget (applyIgnoreRules pats m) = ruleTarget m := by
  unfold applyIgnoreRules
  split <;> simp [ruleTarget_update_envClient]

theorem applyEnsureRules_fields (pats : List (String → Bool)) (m : ModFile) :
    (applyEnsureRules pats m).downloads = m.downloads ∧
    (applyEnsureRules pats m).envServer = m.envServer ∧
    (applyEnsureRules pats m).fileSize = m.fileSize ∧
    (applyEnsureRules pats m).hashSha1 = m.hashSha1 ∧
    (applyEnsureRules pats m).hashSha512 = m.hashSha512 ∧
    (applyEnsureRules pats m).path = m.path ∧
    (applyEnsureRules pats m).filePath = m.filePath ∧
    (applyEnsureRules pats m).isDisabled = m.isDisabled ∧
    (applyEnsureRules pats m).override = m.override ∧
    (applyEnsureRules pats m).data = m.data ∧
    ruleTarget (applyEnsureRules pats m) = ruleTarget m := by
  unfold applyEnsureRules
  split <;> simp [ruleTarget_update_envClient]

theorem applyModRules_override (opts : ScanOpts) (m : ModFile) :
    (applyModRules opts m).override = m.override := by
  unfold applyModRules
  rw [(applyEnsureRules_fields _ _).2.2.2.2.2.2.2.2.1,
      (applyIgnoreRules_fields _ _).2.2.2.2.2.2.2.2.1]

theorem processAll_mem {e : Env} {modsDir : String} {inc : Bool} {idx : List ModData}
    {l : List ModFile} (hp : processAll e modsDir inc idx = Except.ok l) {m : ModData}
    (hm : m ∈ idx) :
    ∃ r, processMod e modsDir inc m = Except.ok r ∧ r ∈ l := by
  induction idx generalizing l with
  | nil => cases hm
  | cons a t ih =>
    simp only [processAll] at hp
    cases ha : processMod e modsDir inc a with
    | error s => rw [ha] at hp; cases hp
    | ok r =>
      rw [ha] at hp
      cases ht : processAll e modsDir inc t with
      | error s => simp only [ht] at hp; cases hp
      | ok rs =>
        simp only [ht] at hp
        injection hp with h
        subst h
        rcases List.mem_cons.mp hm with rfl | hm2
        · exact ⟨r, ha, List.mem_cons_self _ _⟩
        · rcases ih ht hm2 with ⟨r2, h2, h2l⟩
          exact ⟨r2, h2, List.mem_cons_of_mem _ h2l⟩

/-! ## C3: content-hash lookup resolution -/

/-- C3: for a descriptor resolved by content hash, a lookup with zero or
several candidates yields an override record (and processing still
succeeds), while exactly one candidate yields a record whose downloads
list is exactly the single candidate URL; at the scan level no override
record reaches the manifest files and every override record lands in the
override bucket. -/
theorem C3_hash_lookup_resolution (e : Env) (modsDir : String) (inc : Bool) (m : ModData)
    (hm : m.downloadMode = "metadata:curseforge") :
    (∃ rec, processMod e modsDir inc m = Except.ok rec ∧
      ((getModrinthVersionId (e.lookup (e.sha1 (modFilePathOf e modsDir m))) = none ∨
        getModrinthVersionId (e.lookup (e.sha1 (modFilePathOf e modsDir m))) = some [] ∨
        (∃ a b rest, getModrinthVersionId (e.lookup (e.sha1 (modFilePathOf e modsDir m))) =
          some (a :: b :: rest))) →
        rec.override = true) ∧
      (∀ a, getModrinthVersionId (e.lookup (e.sha1 (modFilePathOf e modsDir m))) = some [a] →
        rec.override = false ∧ rec.downloads = [some a.url])) ∧
    (∀ (idx : List ModData) (opts : ScanOpts) (res : ScanResult),
      m ∈ idx → opts.includeAll = inc →
      scanModsDirectory e modsDir idx opts = Except.ok res →
      (∀ f ∈ res.files, f.override = false) ∧
      (∀ rec, processMod e modsDir inc m = Except.ok rec → rec.override = true →
        applyModRules opts rec ∈ res.overrideMods)) := by
  have hq : (m.downloadMode == "url") = false := by rw [hm]; decide
  have hq2 : (m.downloadMode == "metadata:curseforge") = true := by rw [hm]; decide
  constructor
  · cases hr : getModrinthVersionId (e.lookup (e.sha1 (modFilePathOf e modsDir m))) with
    | none =>
      simp only [processMod, hq, hq2, hr, Bool.false_eq_true, if_false, if_true]
      refine ⟨_, rfl, ?_, ?_⟩
      · intro _; rfl
      · intro a ha
        cases ha
    | some fs =>
      cases fs with
      | nil =>
        simp only [processMod, hq, hq2, hr, Bool.false_eq_true, if_false, if_true]
        refine ⟨_, rfl, ?_, ?_⟩
        · intro _; rfl
        · intro a ha
          injection ha with ha2
          cases ha2
      | cons a t =>
        cases t with
        | nil =>
          simp only [processMod, hq, hq2, hr, Bool.false_eq_true, if_false, if_true]
          refine ⟨_, rfl, ?_, ?_⟩
          · rintro (hbad | hbad | ⟨x, y, rest, hbad⟩)
            · cases hbad
            · injection hbad with hbad2; cases hbad2
            · injection hbad with hbad2; cases hbad2
          · intro a2 ha2
            injection ha2 with ha3
            injection ha3 with ha4 ha5
            subst ha4
            exact ⟨rfl, rfl⟩
        | cons b t2 =>
          simp only [processMod, hq, hq2, hr, Bool.false_eq_true, if_false, if_true]
          refine ⟨_, rfl, ?_, ?_⟩
          · intro _; rfl
          · intro a2 ha2
            injection ha2 with ha3
            injection ha3 with ha4 ha5
            cases ha5
  · intro idx opts res hmem hinc hscan
    unfold scanModsDirectory at hscan
    cases hp : processAll e modsDir opts.includeAll idx with
    | error s => rw [hp] at hscan; cases hscan
    | ok l =>
      rw [hp] at hscan
      simp only [] at hscan
      injection hscan with hres
      subst hres
      constructor
      · intro f hf
        simp only [List.mem_map] at hf
        rcases hf with ⟨mf, hmf, rfl⟩
        have hov := (List.mem_filter.mp hmf).2
        simp only [Bool.not_eq_true'] at hov
        simpa [toManifest] using hov
      · intro rec hrec hov
        rw [hinc] at hp
        rcases processAll_mem hp hmem with ⟨r, hr, hrl⟩
        rw [hrec] at hr
        injection hr with hr2
        subst hr2
        refine List.mem_filter.mpr ⟨List.mem_map_of_mem _ hrl, ?_⟩
        rw [applyModRules_override]
        exact hov

/-- C3 witness: the resolution theorem applied to a concrete descriptor in
an environment whose lookup returns zero candidates. -/
theorem C3_hash_lookup_resolution_witness :
    ∃ rec, processMod c3Env "../mods" false c3Mod = Except.ok rec ∧ rec.override = true := by
  obtain ⟨rec, hok, hbad, _⟩ := (C3_hash_lookup_resolution c3Env "../mods" false c3Mod rfl).1
  exact ⟨rec, hok, hbad (Or.inr (Or.inl rfl))⟩

/-! ## C10: lookup transport failures -/

/-- C10: a network failure or a non-OK HTTP response makes
getModrinthVersionId resolve to null instead of throwing, and a descriptor
whose lookup resolved to null is processed to exactly the same override
record as one whose lookup succeeded with zero candidates; in particular
processing still succeeds, so a transport failure never aborts the
build. -/
theorem C10_lookup_failure_never_aborts :
    (∀ o : FetchOutcome, (o = FetchOutcome.netErr ∨ o = FetchOutcome.httpErr) →
      getModrinthVersionId o = none) ∧
    (∀ (e1 e2 : Env) (modsDir : String) (inc : Bool) (m : ModData),
      m.downloadMode = "metadata:curseforge" →
      e1.dis = e2.dis → e1.size = e2.size → e1.sha1 = e2.sha1 → e1.sha512 = e2.sha512 →
      getModrinthVersionId (e1.lookup (e1.sha1 (modFilePathOf e1 modsDir m))) = none →
      getModrinthVersionId (e2.lookup (e2.sha1 (modFilePathOf e2 modsDir m))) = some [] →
      processMod e1 modsDir inc m = processMod e2 modsDir inc m ∧
      ∃ rec, processMod e1 modsDir inc m = Except.ok rec ∧ rec.override = true) := by
  constructor
  · rintro o (rfl | rfl) <;> rfl
  · intro e1 e2 modsDir inc m hm hdis hsize hsha1 hsha512 hfail hempty
    have hq : (m.downloadMode == "url") = false := by rw [hm]; decide
    have hq2 : (m.downloadMode == "metadata:curseforge") = true := by rw [hm]; decide
    have hpath : modFilePathOf e1 modsDir m = modFilePathOf e2 modsDir m := by
      unfold modFilePathOf
      rw [hdis]
    constructor
    · rw [hpath, hsha1] at hfail
      simp only [processMod, hq, hq2, Bool.false_eq_true, if_false, if_true, hdis, hsha1,
        hpath, hfail, hempty]
    · simp only [processMod, hq, hq2, Bool.false_eq_true, if_false, if_true, hfail]
      exact ⟨_, rfl, rfl⟩

/-- C10 witness: the failure theorem applied to two concrete environments
differing only in the lookup outcome (network failure against zero
candidates). -/
theorem C10_lookup_failure_never_aborts_witness :
    processMod c10EnvFail "../mods" false c3Mod = processMod c3Env "../mods" false c3Mod ∧
    ∃ rec, processMod c10EnvFail "../mods" false c3Mod = Except.ok rec ∧ rec.override = true :=
  C10_lookup_failure_never_aborts.2 c10EnvFail c3Env "../mods" false c3Mod rfl rfl rfl rfl rfl
    rfl rfl

/-! ## C4: rule list precedence -/

/-- C4 counterexample: for an enabled record matching a pattern on both
the ensure and the ensureOptional list, the claimed semantics (ignore,
then ensure, then ensureOptional, later pass wins) would force client
support to optional, but the source leaves it required: the scan reads
only the ensure and ignore lists, so ensureOptional has no effect. -/
theorem C4_counterexample :
    (applyModRules c4Opts c4Mod).envClient = "required" ∧
    (applyRulesPerSpec c4Opts c4Mod).envClient = "optional" ∧
    ("required" : String) ≠ "optional" := by
  refine ⟨rfl, rfl, ?_⟩
  decide

/-- C4 (amended): the rule engine applies exactly two rule lists in the
fixed sequence ignore then ensure, independently per record and mutating
only client support: ignore forces optional when disabled else
unsupported, ensure forces optional when disabled else required, and on a
record matching both lists the ensure outcome wins; an ensureOptional
list supplied by the caller is never read and has no effect on the
result. -/
theorem C4_rule_precedence (opts : ScanOpts) (m : ModFile) :
    (applyModRules opts m = applyEnsureRules opts.ensureMods (applyIgnoreRules opts.ignoreMods m)) ∧
    (opts.ensureMods.any (fun p => p (ruleTarget m)) = true →
      (applyModRules opts m).envClient = (if m.isDisabled then "optional" else "required")) ∧
    (opts.ensureMods.any (fun p => p (ruleTarget m)) = false →
      opts.ignoreMods.any (fun p => p (ruleTarget m)) = true →
      (applyModRules opts m).envClient = (if m.isDisabled then "optional" else "unsupported")) ∧
    (opts.ensureMods.any (fun p => p (ruleTarget m)) = false →
      opts.ignoreMods.any (fun p => p (ruleTarget m)) = false →
      applyModRules opts m = m) ∧
    (∀ l, applyModRules { opts with ensureOptional := l } m = applyModRules opts m) := by
  have htgt := (applyIgnoreRules_fields opts.ignoreMods m).2.2.2.2.2.2.2.2.2.2
  have hdis := (applyIgnoreRules_fields opts.ignoreMods m).2.2.2.2.2.2.2.1
  refine ⟨rfl, ?_, ?_, ?_, ?_⟩
  · intro hens
    unfold applyModRules applyEnsureRules
    rw [htgt, hens]
    simp only [if_true, hdis]
  · intro hens hign
    unfold applyModRules applyEnsureRules
    rw [htgt, hens]
    simp only [Bool.false_eq_true, if_false]
    unfold applyIgnoreRules
    rw [hign]
    simp
  · intro hens hign
    unfold applyModRules applyEnsureRules
    rw [htgt, hens]
    simp only [Bool.false_eq_true, if_false]
    unfold applyIgnoreRules
    rw [hign]
    simp
  · intro l
    rfl

/-- C4 witness: the amended precedence theorem applied to the concrete
record matching an ensure pattern, with the match hypothesis discharged by
evaluation. -/
theorem C4_rule_precedence_witness :
    (applyModRules c4Opts c4Mod).envClient = (if c4Mod.isDisabled then "optional" else "required") :=
  (C4_rule_precedence c4Opts c4Mod).2.1 (by decide)

/-! ## C9: the rule pass mutates only client support -/

/-- C9: the rule application pass leaves every field of a scanned record
except env.client unchanged (in particular env.server), and, being a map
over the scanned list, removes no record from it. -/
theorem C9_rules_frame (opts : ScanOpts) (m : ModFile) :
    (applyModRules opts m).envServer = m.envServer ∧
    (applyModRules opts m).downloads = m.downloads ∧
    (applyModRules opts m).fileSize = m.fileSize ∧
    (applyModRules opts m).hashSha1 = m.hashSha1 ∧
    (applyModRules opts m).hashSha512 = m.hashSha512 ∧
    (applyModRules opts m).path = m.path ∧
    (applyModRules opts m).filePath = m.filePath ∧
    (applyModRules opts m).isDisabled = m.isDisabled ∧
    (applyModRules opts m).override = m.override ∧
    (applyModRules opts m).data = m.data ∧
    ∀ l : List ModFile, (l.map (applyModRules opts)).length = l.length := by
  have hi := applyIgnoreRules_fields opts.ignoreMods m
  have he := applyEnsureRules_fields opts.ensureMods (applyIgnoreRules opts.ignoreMods m)
  unfold applyModRules
  refine ⟨?_, ?_, ?_, ?_, ?_, ?_, ?_, ?_, ?_, ?_, ?_⟩
  · rw [he.2.1, hi.2.1]
  · rw [he.1, hi.1]
  · rw [he.2.2.1, hi.2.2.1]
  · rw [he.2.2.2.1, hi.2.2.2.1]
  · rw [he.2.2.2.2.1, hi.2.2.2.2.1]
  · rw [he.2.2.2.2.2.1, hi.2.2.2.2.2.1]
  · rw [he.2.2.2.2.2.2.1, hi.2.2.2.2.2.2.1]
  · rw [he.2.2.2.2.2.2.2.1, hi.2.2.2.2.2.2.2.1]
  · rw [he.2.2.2.2.2.2.2.2.1, hi.2.2.2.2.2.2.2.2.1]
  · rw [he.2.2.2.2.2.2.2.2.2.1, hi.2.2.2.2.2.2.2.2.2.1]
  · intro l
    exact List.length_map l _

/-! ## String and path helper lemmas -/

theorem listIsPrefixOf_append (l t : List Char) : l.isPrefixOf (l ++ t) = true := by
  induction l with
  | nil => simp [List.isPrefixOf]
  | cons c cs ih => simp [List.isPrefixOf, ih]

theorem strStartsWith_append (a b : String) : strStartsWith (a ++ b) a = true := by
  unfold strStartsWith
  rw [String.data_append]
  exact listIsPrefixOf_append a.data b.data

theorem afterLastSep_noSlash (b : List Char) (h : ∀ c ∈ b, c ≠ '/') (acc : List Char) :
    b.foldl (fun acc c => if c = '/' then [] else acc ++ [c]) acc = acc ++ b := by
  induction b generalizing acc with
  | nil => simp
  | cons c cs ih =>
    have hc : c ≠ '/' := h c (List.mem_cons_self c cs)
    simp only [List.foldl_cons, if_neg hc]
    rw [ih (fun x hx => h x (List.mem_cons_of_mem c hx))]
    simp

theorem basename_pjoin (a b : String) (h : ∀ c ∈ b.data, c ≠ '/') :
    basename (pjoin a b) = b := by
  unfold basename pjoin afterLastSep
  rw [String.data_append, String.data_append]
  rw [List.foldl_append, List.foldl_append]
  have hsep : (("/" : String).data.foldl (fun acc c => if c = '/' then [] else acc ++ [c])
      (a.data.foldl (fun acc c => if c = '/' then [] else acc ++ [c]) [])) = [] := by
    simp [String.data]
  rw [hsep, afterLastSep_noSlash b.data h []]
  cases b with
  | mk d => simp

theorem strContains_false_noSlash (s : String) (h : strContains s '/' = false) :
    ∀ c ∈ s.data, c ≠ '/' := by
  intro c hc
  unfold strContains at h
  intro hsl
  subst hsl
  simp [List.elem_eq_mem, hc] at h

theorem takeWhile_noSlash (a b : List Char) (h : ∀ c ∈ a, c ≠ '/') :
    (a ++ '/' :: b).takeWhile (fun c => c != '/') = a := by
  induction a with
  | nil => simp
  | cons c cs ih =>
    have hc : (c != '/') = true := by
      simpa using h c (List.mem_cons_self c cs)
    simp only [List.cons_append, List.takeWhile_cons, hc, if_true]
    rw [ih (fun x hx => h x (List.mem_cons_of_mem c hx))]

theorem topLevelSegment_pjoin (a b : String) (h : ∀ c ∈ a.data, c ≠ '/') :
    topLevelSegment (pjoin a b) = a := by
  unfold topLevelSegment pjoin
  rw [String.data_append, String.data_append]
  have : (("/" : String).data) = ['/'] := rfl
  rw [this, List.append_assoc, List.singleton_append, takeWhile_noSlash a.data b.data h]

/-! ## Deployment plan helper lemmas -/

theorem classifyLoop_eq_filters (sftp : SFTPState) (rp : String) (items : List LocalItem) :
    classifyLoop sftp rp items =
      (items.filter (fun it => !isDirItem it && !protHit sftp rp it && sizeChanged sftp rp it),
       items.filter (fun it => !isDirItem it && !protHit sftp rp it && !sizeChanged sftp rp it),
       items.filter (fun it => !isDirItem it && protHit sftp rp it)) := by
  induction items with
  | nil => rfl
  | cons it rest ih =>
    simp only [classifyLoop, ih, List.filter_cons]
    by_cases h1 : isDirItem it = true
    · simp [h1]
    · rw [Bool.not_eq_true] at h1
      by_cases h2 : protHit sftp rp it = true
      · simp [h1, h2]
      · rw [Bool.not_eq_true] at h2
        by_cases h3 : sizeChanged sftp rp it = true
        · simp [h1, h2, h3]
        · rw [Bool.not_eq_true] at h3
          simp [h1, h2, h3]

theorem mem_deletesFor (sftp : SFTPState) (rp : String) (items : List LocalItem)
    (sd : String) (d : DeleteItem) :
    d ∈ deletesFor sftp rp items sd ↔
      ∃ info, sftp.info (pjoin rp sd) = some info ∧ info.2 = true ∧
      ∃ entries, sftp.listDir (pjoin rp sd) = some entries ∧
      ∃ rf, rf ∈ entries ∧ rf.type = "-" ∧ (localFilesIn items sd).contains rf.name = false ∧
        d = { name := pjoin sd rf.name, remotePath := pjoin (pjoin rp sd) rf.name } := by
  unfold deletesFor
  cases hi : sftp.info (pjoin rp sd) with
  | none => simp [hi]
  | some info =>
    simp only [hi, Option.some.injEq]
    by_cases h2 : info.2 = true
    · rw [if_pos h2]
      cases hl : sftp.listDir (pjoin rp sd) with
      | none => simp [hl]
      | some entries =>
        simp only [hl, Option.some.injEq]
        constructor
        · intro hd
          simp only [List.mem_map, List.mem_filter, Bool.and_eq_true, beq_iff_eq,
            Bool.not_eq_true'] at hd
          rcases hd with ⟨rf, ⟨hrf, htype, hcont⟩, rfl⟩
          exact ⟨info, rfl, h2, entries, rfl, rf, hrf, htype, by simpa using hcont, rfl⟩
        · rintro ⟨info2, hinfo2, _, entries2, hent2, rf, hrf, htype, hcont, rfl⟩
          subst hinfo2
          subst hent2
          apply List.mem_map_of_mem
          apply List.mem_filter.mpr
          refine ⟨hrf, ?_⟩
          have hmem : rf.name ∉ localFilesIn items sd := by simpa using hcont
          simp [htype, hmem]
    · rw [if_neg h2]
      simp only [List.not_mem_nil, false_iff]
      rintro ⟨info2, hinfo2, hinfo22, -⟩
      subst hinfo2
      exact h2 hinfo22

theorem mem_toDelete (sftp : SFTPState) (items : List LocalItem) (rp : String) (skip : Bool)
    (d : DeleteItem) :
    d ∈ (analyzeDeployment sftp items rp skip).toDelete ↔
      ∃ sd, sd ∈ exactSyncDirs skip ∧ d ∈ deletesFor sftp rp items sd := by
  simp only [analyzeDeployment, List.mem_flatten, List.mem_map]
  constructor
  · rintro ⟨l, ⟨sd, hsd, rfl⟩, hd⟩
    exact ⟨sd, hsd, hd⟩
  · rintro ⟨sd, hsd, hd⟩
    exact ⟨deletesFor sftp rp items sd, ⟨sd, hsd, rfl⟩, hd⟩

/-! ## C5: protected file precedence -/

/-- C5: a local file whose basename is on the protected list and which
already exists remotely is classified protected and appears in neither
toUpload nor toDelete, regardless of any size difference (no size
hypothesis is required). The deletion part assumes remote listings return
plain entry names without separators. -/
theorem C5_protected_precedence (sftp : SFTPState) (items : List LocalItem) (rp : String)
    (skip : Bool) (item : LocalItem)
    (hws : ∀ d2 l2, sftp.listDir d2 = some l2 → ∀ e2 ∈ l2, strContains e2.name '/' = false)
    (hmem : item ∈ items) (hfile : item.type = "file")
    (hprot : protectedFiles.contains (basename item.name) = true)
    (hex : (sftp.info (pjoin rp item.name)).isSome = true) :
    item ∈ (analyzeDeployment sftp items rp skip).toProtect ∧
    item ∉ (analyzeDeployment sftp items rp skip).toUpload ∧
    ∀ d2 ∈ (analyzeDeployment sftp items rp skip).toDelete, d2.name ≠ item.name := by
  have hdir : isDirItem item = false := by simp [isDirItem, hfile]
  have hph : protHit sftp rp item = true := by simp only [protHit, hprot, hex, Bool.and_self]
  have hcl := classifyLoop_eq_filters sftp rp items
  refine ⟨?_, ?_, ?_⟩
  · have hp : (analyzeDeployment sftp items rp skip).toProtect = (classifyLoop sftp rp items).2.2 := rfl
    rw [hp, hcl]
    apply List.mem_filter.mpr
    refine ⟨hmem, ?_⟩
    simp [hdir, hph]
  · have hu : (analyzeDeployment sftp items rp skip).toUpload = (classifyLoop sftp rp items).1 := rfl
    rw [hu, hcl]
    intro hmem2
    have hpred := (List.mem_filter.mp hmem2).2
    simp [hdir, hph] at hpred
  · intro d2 hd2 heq
    rcases (mem_toDelete sftp items rp skip d2).mp hd2 with ⟨sd, hsd, hdel⟩
    rcases (mem_deletesFor sftp rp items sd d2).mp hdel with
      ⟨info, hinfo, hisdir, entries, hlist, rf, hrf, htype, hcont, rfl⟩
    have hnoslash := hws _ _ hlist rf hrf
    have hchars := strContains_false_noSlash rf.name hnoslash
    have heq2 : pjoin sd rf.name = item.name := heq
    have hsw : strStartsWith item.name (sd ++ "/") = true := by
      rw [← heq2]
      exact strStartsWith_append (sd ++ "/") rf.name
    have hin : basename item.name ∈ localFilesIn items sd := by
      unfold localFilesIn
      apply List.mem_map_of_mem
      apply List.mem_filter.mpr
      refine ⟨hmem, ?_⟩
      simp [hsw, hfile]
    have hbn : basename item.name = rf.name := by
      rw [← heq2]
      exact basename_pjoin sd rf.name hchars
    rw [hbn] at hin
    simp [List.elem_eq_mem, hin] at hcont

/-- C5 witness: the precedence theorem applied to a local ops.json of size
7 against a remote copy of size 3. -/
theorem C5_protected_precedence_witness :
    c5Item ∈ (analyzeDeployment c5Sftp [c5Item] "/srv" false).toProtect ∧
    c5Item ∉ (analyzeDeployment c5Sftp [c5Item] "/srv" false).toUpload ∧
    ∀ d2 ∈ (analyzeDeployment c5Sftp [c5Item] "/srv" false).toDelete, d2.name ≠ c5Item.name :=
  C5_protected_precedence c5Sftp [c5Item] "/srv" false c5Item
    (fun _ _ h => nomatch h) (by decide) rfl (by decide) (by decide)

/-! ## C6: exact-mirror deletion scope -/

theorem exactSyncDirs_subset (skip : Bool) (sd : String) (h : sd ∈ exactSyncDirs skip) :
    sd ∈ ["mods", "libraries", "kubejs", "configureddefaults"] := by
  cases skip with
  | false => exact h
  | true =>
    unfold exactSyncDirs at h
    simp only [if_true] at h
    exact (List.mem_filter.mp h).1

theorem scanEntries_filter_lib (serverDir : String) (tree : List FsEntry) :
    scanEntries true serverDir "" tree =
      scanEntries true serverDir "" (tree.filter (fun e2 => entryName e2 != "libraries")) := by
  induction tree with
  | nil => rfl
  | cons e es ih =>
    rw [List.filter_cons]
    by_cases he : (entryName e != "libraries") = true
    · rw [if_pos he]
      simp only [scanEntries]
      rw [ih]
    · rw [if_neg he]
      have he2 : entryName e = "libraries" := by simpa using he
      simp only [scanEntries]
      rw [ih]
      have hz : scanEntry true serverDir "" e = [] := by
        cases e with
        | file n sz =>
          simp only [entryName] at he2
          subst he2
          simp [scanEntry, pjoinRel]
        | dir n cs =>
          simp only [entryName] at he2
          subst he2
          simp [scanEntry, pjoinRel]
      rw [hz, List.nil_append]

/-- C6: every scheduled deletion originates from listing a directory on
the exact synchronization allow-list (so upload-only directories never
contribute deletions) and carries the exact-sync action; conversely a
listed remote regular file under an allow-listed directory with no local
counterpart of the same name is scheduled for deletion; with the skip
flag set, libraries drops off the allow-list and the local scan ignores
the top level libraries directory entirely. -/
theorem C6_exact_mirror_deletion_scope (sftp : SFTPState) (items : List LocalItem) (rp : String)
    (skip : Bool) :
    (∀ d ∈ (analyzeDeployment sftp items rp skip).toDelete,
      ∃ sd, sd ∈ exactSyncDirs skip ∧
      ∃ info, sftp.info (pjoin rp sd) = some info ∧ info.2 = true ∧
      ∃ entries, sftp.listDir (pjoin rp sd) = some entries ∧
      ∃ rf, rf ∈ entries ∧ rf.type = "-" ∧ (localFilesIn items sd).contains rf.name = false ∧
        d = { name := pjoin sd rf.name, remotePath := pjoin (pjoin rp sd) rf.name }) ∧
    (∀ d ∈ (analyzeDeployment sftp items rp skip).toDelete,
      getSyncAction d.name = "exact-sync") ∧
    (∀ sd, sd ∈ exactSyncDirs skip →
      ∀ info, sftp.info (pjoin rp sd) = some info → info.2 = true →
      ∀ entries, sftp.listDir (pjoin rp sd) = some entries →
      ∀ rf, rf ∈ entries → rf.type = "-" → (localFilesIn items sd).contains rf.name = false →
      ({ name := pjoin sd rf.name, remotePath := pjoin (pjoin rp sd) rf.name } : DeleteItem) ∈
        (analyzeDeployment sftp items rp skip).toDelete) ∧
    exactSyncDirs true = ["mods", "kubejs", "configureddefaults"] ∧
    (∀ (serverDir : String) (tree : List FsEntry),
      scanServerDirectory serverDir tree true =
        scanServerDirectory serverDir (tree.filter (fun e2 => entryName e2 != "libraries")) true) := by
  refine ⟨?_, ?_, ?_, ?_, ?_⟩
  · intro d hd
    rcases (mem_toDelete sftp items rp skip d).mp hd with ⟨sd, hsd, hdel⟩
    rcases (mem_deletesFor sftp rp items sd d).mp hdel with
      ⟨info, hinfo, hisdir, entries, hlist, rf, hrf, htype, hcont, rfl⟩
    exact ⟨sd, hsd, info, hinfo, hisdir, entries, hlist, rf, hrf, htype, hcont, rfl⟩
  · intro d hd
    rcases (mem_toDelete sftp items rp skip d).mp hd with ⟨sd, hsd, hdel⟩
    rcases (mem_deletesFor sftp rp items sd d).mp hdel with
      ⟨info, hinfo, hisdir, entries, hlist, rf, hrf, htype, hcont, rfl⟩
    have hsd4 := exactSyncDirs_subset skip sd hsd
    simp only [List.mem_cons, List.not_mem_nil, or_false] at hsd4
    rcases hsd4 with rfl | rfl | rfl | rfl <;>
      (unfold getSyncAction
       rw [show (({ name := pjoin _ rf.name, remotePath := pjoin (pjoin rp _) rf.name } :
         DeleteItem)).name = pjoin _ rf.name from rfl]) <;>
      rw [topLevelSegment_pjoin _ rf.name (by decide)] <;> decide
  · intro sd hsd info hinfo hisdir entries hlist rf hrf htype hcont
    apply (mem_toDelete sftp items rp skip _).mpr
    refine ⟨sd, hsd, ?_⟩
    exact (mem_deletesFor sftp rp items sd _).mpr
      ⟨info, hinfo, hisdir, entries, hlist, rf, hrf, htype, hcont, rfl⟩
  · decide
  · intro serverDir tree
    unfold scanServerDirectory
    exact scanEntries_filter_lib serverDir tree

/-- C6 witness: the deletion scope theorem applied to a concrete remote
mods directory containing one stale file and an empty local tree: the
stale file is scheduled for deletion. -/
theorem C6_exact_mirror_deletion_scope_witness :
    ({ name := pjoin "mods" "old.jar", remotePath := pjoin (pjoin "/srv" "mods") "old.jar" } :
      DeleteItem) ∈ (analyzeDeployment c6Sftp [] "/srv" false).toDelete :=
  (C6_exact_mirror_deletion_scope c6Sftp [] "/srv" false).2.2.1 "mods" (by decide)
    (0, true) rfl rfl [{ name := "old.jar", type := "-", size := 10 }] rfl
    { name := "old.jar", type := "-", size := 10 } (by decide) rfl (by decide)

/-! ## C7: idempotence of the deployment plan -/

/-- C7 counterexample: planning a single protected file (whitelist.json)
against a remote listing equal to the local tree yields empty toUpload and
toDelete but also an empty unchanged list: the item lands in the protected
bucket, so unchanged does not contain all items as the claim states. -/
theorem C7_counterexample :
    (analyzeDeployment c7ProtSftp c7ProtItems "/srv" false).toUpload = [] ∧
    (analyzeDeployment c7ProtSftp c7ProtItems "/srv" false).toDelete = [] ∧
    (analyzeDeployment c7ProtSftp c7ProtItems "/srv" false).unchanged = [] ∧
    (analyzeDeployment c7ProtSftp c7ProtItems "/srv" false).toProtect = c7ProtItems ∧
    c7ProtItems ≠ [] := by
  decide

/-- C7 (amended): when every local file has a remote counterpart of equal
size and every listed remote regular file under an allow-listed directory
has a local counterpart of the same name, the plan uploads nothing and
deletes nothing; every file item lands in unchanged except those with a
protected basename, which land in the protected bucket, and directory
items are classified nowhere. -/
theorem C7_plan_idempotent (sftp : SFTPState) (items : List LocalItem) (rp : String) (skip : Bool)
    (h0 : items.all (fun it => it.type == "file" || it.type == "directory") = true)
    (h1 : items.all (fun it => it.type != "file" ||
        (match sftp.info (pjoin rp it.name) with
         | some i => i.1 == it.size
         | none => false)) = true)
    (h2 : (exactSyncDirs skip).all (fun sd =>
        (match sftp.listDir (pjoin rp sd) with
         | some entries => entries.all (fun e2 => e2.type != "-" ||
             (localFilesIn items sd).contains e2.name)
         | none => true)) = true) :
    (analyzeDeployment sftp items rp skip).toUpload = [] ∧
    (analyzeDeployment sftp items rp skip).toDelete = [] ∧
    (analyzeDeployment sftp items rp skip).unchanged =
      items.filter (fun it => it.type == "file" &&
        !(protectedFiles.contains (basename it.name))) ∧
    (analyzeDeployment sftp items rp skip).toProtect =
      items.filter (fun it => it.type == "file" && protectedFiles.contains (basename it.name)) := by
  simp only [List.all_eq_true] at h0 h1 h2
  have hcl := classifyLoop_eq_filters sftp rp items
  have hfile : ∀ it ∈ items, it.type = "file" →
      ∃ i, sftp.info (pjoin rp it.name) = some i ∧ i.1 = it.size := by
    intro it hit hf
    have := h1 it hit
    rw [hf] at this
    simp only [bne_self_eq_false, Bool.false_or] at this
    cases hi : sftp.info (pjoin rp it.name) with
    | none => rw [hi] at this; cases this
    | some i =>
      rw [hi] at this
      exact ⟨i, rfl, by simpa using this⟩
  refine ⟨?_, ?_, ?_, ?_⟩
  · have hu : (analyzeDeployment sftp items rp skip).toUpload = (classifyLoop sftp rp items).1 := rfl
    rw [hu, hcl]
    apply List.filter_eq_nil_iff.mpr
    intro it hit
    intro hpred
    simp only [Bool.and_eq_true, Bool.not_eq_true'] at hpred
    rcases hpred with ⟨⟨hdir, hprot⟩, hsz⟩
    have htype := h0 it hit
    simp only [Bool.or_eq_true, beq_iff_eq] at htype
    rcases htype with hf | hd
    · rcases hfile it hit hf with ⟨i, hi, hieq⟩
      unfold sizeChanged at hsz
      rw [hi] at hsz
      simp [hieq] at hsz
    · unfold isDirItem at hdir
      rw [hd] at hdir
      simp at hdir
  · have ht : (analyzeDeployment sftp items rp skip).toDelete =
        ((exactSyncDirs skip).map (deletesFor sftp rp items)).flatten := rfl
    rw [ht]
    apply List.flatten_eq_nil_iff.mpr
    intro l hl
    rcases List.mem_map.mp hl with ⟨sd, hsd, rfl⟩
    unfold deletesFor
    cases hi : sftp.info (pjoin rp sd) with
    | none => simp [hi]
    | some info =>
      simp only [hi]
      by_cases hdir : info.2 = true
      · rw [if_pos hdir]
        cases hld : sftp.listDir (pjoin rp sd) with
        | none => simp [hld]
        | some entries =>
          simp only [hld]
          have hall := h2 sd hsd
          rw [hld] at hall
          simp only [List.all_eq_true] at hall
          have : entries.filter
              (fun rf => rf.type == "-" && !((localFilesIn items sd).contains rf.name)) = [] := by
            apply List.filter_eq_nil_iff.mpr
            intro rf hrf hpred
            simp only [Bool.and_eq_true, beq_iff_eq, Bool.not_eq_true'] at hpred
            have := hall rf hrf
            simp only [Bool.or_eq_true, bne_iff_ne, ne_eq] at this
            rcases this with hne | hcont
            · exact hne hpred.1
            · rw [hpred.2] at hcont; cases hcont
          rw [this]
          simp
      · rw [if_neg hdir]
  · have hc : (analyzeDeployment sftp items rp skip).unchanged = (classifyLoop sftp rp items).2.1 := rfl
    rw [hc, hcl]
    apply List.filter_congr
    intro it hit
    have htype := h0 it hit
    simp only [Bool.or_eq_true, beq_iff_eq] at htype
    rcases htype with hf | hd
    · rcases hfile it hit hf with ⟨i, hi, hieq⟩
      have hdir : isDirItem it = false := by simp [isDirItem, hf]
      have hsome : (sftp.info (pjoin rp it.name)).isSome = true := by rw [hi]; rfl
      have hsz : sizeChanged sftp rp it = false := by
        unfold sizeChanged
        rw [hi]
        simp [hieq]
      rw [hdir, hsz]
      unfold protHit
      rw [hsome, hf]
      cases hpc : protectedFiles.contains (basename it.name) <;> simp
    · have hdir : isDirItem it = true := by simp [isDirItem, hd]
      rw [hdir, hd]
      simp
  · have hp : (analyzeDeployment sftp items rp skip).toProtect = (classifyLoop sftp rp items).2.2 := rfl
    rw [hp, hcl]
    apply List.filter_congr
    intro it hit
    have htype := h0 it hit
    simp only [Bool.or_eq_true, beq_iff_eq] at htype
    rcases htype with hf | hd
    · rcases hfile it hit hf with ⟨i, hi, hieq⟩
      have hdir : isDirItem it = false := by simp [isDirItem, hf]
      have hsome : (sftp.info (pjoin rp it.name)).isSome = true := by rw [hi]; rfl
      rw [hdir]
      unfold protHit
      rw [hsome, hf]
      simp
    · have hdir : isDirItem it = true := by simp [isDirItem, hd]
      rw [hdir, hd]
      simp

/-- C7 witness: the amended idempotence theorem applied to a one-file tree
with a remote listing equal to it. -/
theorem C7_plan_idempotent_witness :
    (analyzeDeployment c7Sftp c7Items "/srv" false).toUpload = [] ∧
    (analyzeDeployment c7Sftp c7Items "/srv" false).toDelete = [] ∧
    (analyzeDeployment c7Sftp c7Items "/srv" false).unchanged =
      c7Items.filter (fun it => it.type == "file" &&
        !(protectedFiles.contains (basename it.name))) ∧
    (analyzeDeployment c7Sftp c7Items "/srv" false).toProtect =
      c7Items.filter (fun it => it.type == "file" &&
        protectedFiles.contains (basename it.name)) :=
  C7_plan_idempotent c7Sftp c7Items "/srv" false (by decide) (by decide) (by decide)

/-! ## C8: manifest build determinism and ordering -/

/-- C8 counterexample: the serialized manifest for the classified input
ordered [b.jar, a.jar] differs from the one for [a.jar, b.jar]; the files
array is emitted in input order, so for a non-sorted classified input the
output is not in filename-sorted order as the claim states. -/
theorem C8_counterexample :
    buildIndexJson c8Meta [c8FileB, c8FileA] ≠ buildIndexJson c8Meta [c8FileA, c8FileB] := by
  decide

/-- C8 (amended): the manifest build is a pure function of the pack
metadata and the classified input, so identical inputs give byte-identical
JSON, and the files array is embedded in exactly the input order; no
sorting is applied anywhere in the builder. -/
theorem C8_build_deterministic_input_order (b : PackMeta) (files : List ManifestFile) :
    (∀ (b2 : PackMeta) (files2 : List ManifestFile), b = b2 → files = files2 →
      buildIndexJson b files = buildIndexJson b2 files2) ∧
    buildIndexJson b files =
      indexJsonPrefix b ++ jsonArr (files.map renderManifestFile) ++ indexJsonSuffix b := by
  refine ⟨?_, rfl⟩
  rintro b2 files2 rfl rfl
  rfl

/-- C8 witness: the determinism theorem applied to a concrete build input,
with both equality hypotheses discharged by rfl. -/
theorem C8_build_deterministic_input_order_witness :
    buildIndexJson c8Meta [c8FileA] = buildIndexJson c8Meta [c8FileA] :=
  (C8_build_deterministic_input_order c8Meta [c8FileA]).1 c8Meta [c8FileA] rfl rfl
